import Mathlib

/-!
Verification of the MagnetStreamer server (`src/server/index.js`).

The server keeps a registry of active torrent sessions
(`activeTorrents : Map<magnetUrl, { torrent, lastAccessed, createdAt }>`),
evicts least-recently-accessed sessions when a new stream is started at
capacity (`cleanupOldTorrents`), serves HTTP range requests against the
selected video file of a torrent (`/api/torrent/:id/stream` and
`/api/torrent/:id/download`), re-prioritizes torrent pieces on download
progress, and proxies a torrent search (`/api/search`).

This file is a shallow embedding of that code:
* JavaScript `Map` objects are association lists in insertion order
  (`Map.set` on an existing key updates in place keeping the position,
  on a new key appends; `Map.delete` removes the entry).
* `Array.prototype.sort` with a numeric comparator is a stable ascending
  sort, embedded as a stable insertion sort.
* `Date.now()` values are abstract `Nat` timestamps supplied by the caller.
* `parseInt(s, 10)` is embedded as `jsParseInt`, returning `none` for `NaN`.
* The WebTorrent engine is the environment: handle creation (`client.add`)
  is counted by `addCalls`, and per-torrent facts (`destroyed`, the `files`
  list known after metadata) are fields of the registry entry that
  environment events may update.
* `torrent.progress` (a float ratio) is embedded exactly as the pair of
  received/total byte counts; comparisons and `Math.floor` on it become
  exact integer arithmetic.
-/

namespace MagnetStreamer

/-! ## JavaScript string primitives used by the server -/

/-- `parseInt(s, 10)`: skip leading whitespace, optional sign, then the
longest run of decimal digits; `none` models `NaN` (no digits). -/
def jsParseInt (s : String) : Option Int :=
  let cs := s.data.dropWhile (fun c => c.isWhitespace)
  let signAndDigits : Int × List Char :=
    match cs with
    | '-' :: rest => (-1, rest)
    | '+' :: rest => (1, rest)
    | _ => (1, cs)
  let ds := signAndDigits.2.takeWhile (fun c => c.isDigit)
  if ds.isEmpty then none
  else some (signAndDigits.1 * (ds.foldl (fun a c => a * 10 + (c.toNat - 48)) 0 : Nat))

/-- Remove the first occurrence of `pat` from a character list
(JS `String.prototype.replace` with a non-global literal regex). -/
def stripFirstAux (pat : List Char) : List Char → List Char
  | [] => []
  | c :: cs =>
    if pat.isPrefixOf (c :: cs) then (c :: cs).drop pat.length
    else c :: stripFirstAux pat cs

/-- JS `s.replace(/pat/, '')` for a literal pattern: drop its first occurrence. -/
def jsReplaceFirst (pat s : String) : String :=
  ⟨stripFirstAux pat.data s.data⟩

/-- Substring test on character lists (JS `String.prototype.includes`). -/
def listContainsSub (pat : List Char) : List Char → Bool
  | [] => pat.isEmpty
  | c :: cs => pat.isPrefixOf (c :: cs) || listContainsSub pat cs

/-- JS `s.includes(pat)`. -/
def containsSub (s pat : String) : Bool :=
  listContainsSub pat.data s.data

/-- JS `s.endsWith(pat)` (character-list suffix test). -/
def strEndsWith (s pat : String) : Bool :=
  pat.data.isSuffixOf s.data

/-- JS `s.split(sep)` for a one-character separator, on character lists:
`splitOnChar '-' "500-"` is `["500", ""]`. -/
def splitOnChar (sep : Char) : List Char → List (List Char)
  | [] => [[]]
  | c :: cs =>
    if c = sep then [] :: splitOnChar sep cs
    else
      match splitOnChar sep cs with
      | [] => [[c]]
      | r :: rs => (c :: r) :: rs

/-- JS `s.split(sep)` for a one-character separator. -/
def strSplitOn (sep : Char) (s : String) : List String :=
  (splitOnChar sep s.data).map (fun cs => ⟨cs⟩)

/-- JS `s.trim()`: drop leading and trailing whitespace. -/
def jsTrim (s : String) : String :=
  ⟨((s.data.dropWhile (fun c => c.isWhitespace)).reverse.dropWhile
      (fun c => c.isWhitespace)).reverse⟩

/-- JS `s.toLowerCase()` (ASCII case mapping suffices for the keyword
heuristic it feeds). -/
def jsToLower (s : String) : String :=
  ⟨s.data.map (fun c => c.toLower)⟩

/-! ## Files and the video-file allow list -/

/-- One entry of `torrent.files`: a contained file with its byte length. -/
structure FileInfo where
  name : String
  length : Int
  deriving Repr, DecidableEq

/-- The extension allow list used at every call site:
`file.name.endsWith('.mp4') || ... '.mkv' || ... '.avi' || ... '.webm'`. -/
def isVideoFileName (name : String) : Bool :=
  strEndsWith name ".mp4" || strEndsWith name ".mkv" ||
  strEndsWith name ".avi" || strEndsWith name ".webm"

/-- `torrent.files.find(file => ...)`: first file matching the allow list. -/
def findVideoFile (files : List FileInfo) : Option FileInfo :=
  files.find? (fun f => isVideoFileName f.name)

/-! ## The session registry (`activeTorrents`) -/

/-- `const MAX_ACTIVE_TORRENTS = 3` (line 49). -/
def MAX_ACTIVE_TORRENTS : Nat := 3

/-- One entry of `activeTorrents`, flattened together with the engine-side
facts of its `torrent` handle that the server reads:
`infoHash` (modelled as the serial number of the `client.add` call that
created the handle), `destroyed`, and the `files` list (empty until the
engine delivers metadata). -/
structure TorrentEntry where
  magnet : String
  infoHash : Nat
  lastAccessed : Nat
  createdAt : Nat
  destroyed : Bool
  files : List FileInfo
  deriving Repr, DecidableEq

/-- `activeTorrents` as an association list in `Map` insertion order. -/
abbrev Registry := List TorrentEntry

/-- The keys of the registry, in insertion order. -/
abbrev keyList (reg : Registry) : List String :=
  reg.map (fun e => e.magnet)

/-- `activeTorrents.get(m)` (together with the `has` test). -/
def lookupEntry (reg : Registry) (m : String) : Option TorrentEntry :=
  reg.find? (fun e => e.magnet == m)

/-- `activeTorrents.set(e.magnet, e)`: update in place if the key is
present (keeping its position), otherwise append. -/
def setEntry (reg : Registry) (e : TorrentEntry) : Registry :=
  if reg.any (fun x => x.magnet == e.magnet) then
    reg.map (fun x => if x.magnet == e.magnet then e else x)
  else reg ++ [e]

/-- `activeTorrents.delete(m)` (the registry part of `destroyTorrent`;
the engine-side `torrent.destroy()` is fire-and-forget and does not
touch the registry). -/
def deleteEntry (reg : Registry) (m : String) : Registry :=
  reg.filter (fun e => e.magnet != m)

/-- Insert an entry into a list sorted ascending by `lastAccessed`,
after all entries with an equal or smaller key (stability). -/
def insertByLastAccessed (x : TorrentEntry) : List TorrentEntry → List TorrentEntry
  | [] => [x]
  | y :: ys =>
    if x.lastAccessed ≤ y.lastAccessed then x :: y :: ys
    else y :: insertByLastAccessed x ys

/-- `Array.from(activeTorrents.entries()).sort((a, b) => a[1].lastAccessed - b[1].lastAccessed)`:
a stable ascending sort by `lastAccessed` (JS `sort` is stable). -/
def sortByLastAccessed (l : List TorrentEntry) : List TorrentEntry :=
  l.foldr insertByLastAccessed []

/-- The first entry attaining the minimal `lastAccessed` (this is the head
of the stable ascending sort, proved below). -/
def firstMinLA : List TorrentEntry → Option TorrentEntry
  | [] => none
  | x :: xs =>
    match firstMinLA xs with
    | none => some x
    | some m => if x.lastAccessed ≤ m.lastAccessed then some x else some m

/-- `cleanupOldTorrents(newMagnetUrl)` (lines 82–98): when at or above
capacity, sort by `lastAccessed` and destroy the first
`size - MAX_ACTIVE_TORRENTS + 1` entries, skipping `newMagnetUrl`. -/
def cleanupOldTorrents (newMagnetUrl : String) (reg : Registry) : Registry :=
  if MAX_ACTIVE_TORRENTS ≤ reg.length then
    let sorted := sortByLastAccessed reg
    let toRemove := reg.length - MAX_ACTIVE_TORRENTS + 1
    (sorted.take toRemove).foldl
      (fun r v => if v.magnet ≠ newMagnetUrl then deleteEntry r v.magnet else r) reg
  else reg

/-! ## The `POST /api/stream` handler (lines 133–337) -/

/-- The JSON outcome of `POST /api/stream` as far as the claims need it. -/
inductive StreamPostResponse where
  | missingMagnet
  | existing (torrentId : Nat) (fileName : String)
  | added (torrentId : Nat)
  deriving Repr, DecidableEq

/-- Server state: the registry plus the number of `client.add` calls made
so far (which also serves as the next handle id). -/
structure ServerState where
  registry : Registry
  addCalls : Nat
  deriving Repr, DecidableEq

/-- The entry stored at lines 218–222 right after `client.add`:
`{ torrent, lastAccessed: Date.now(), createdAt: Date.now() }`; the new
handle has no metadata yet, so its `files` list is empty. -/
def newTorrentEntry (magnetUrl : String) (handleId : Nat) (now : Nat) : TorrentEntry :=
  ⟨magnetUrl, handleId, now, now, false, []⟩

/-- Lines 171–222: `cleanupOldTorrents(magnetUrl)`, then `client.add`,
then `activeTorrents.set(magnetUrl, {...})`. -/
def addNewTorrent (s : ServerState) (magnetUrl : String) (now : Nat) :
    ServerState × StreamPostResponse :=
  let reg := cleanupOldTorrents magnetUrl s.registry
  (⟨setEntry reg (newTorrentEntry magnetUrl s.addCalls now), s.addCalls + 1⟩,
   .added s.addCalls)

/-- The whole `POST /api/stream` handler. An existing entry first gets
`data.lastAccessed = Date.now()` (line 147); a destroyed torrent is
dropped from the map and re-added; an existing live torrent is reused
only when a video file is found in its (metadata-dependent) file list,
otherwise the handler falls through to `cleanupOldTorrents` + `client.add`. -/
def streamPost (s : ServerState) (magnetUrl : String) (now : Nat) :
    ServerState × StreamPostResponse :=
  if magnetUrl = "" then (s, .missingMagnet)
  else
    match lookupEntry s.registry magnetUrl with
    | some data =>
      let touched : TorrentEntry := { data with lastAccessed := now }
      let s1 : ServerState := ⟨setEntry s.registry touched, s.addCalls⟩
      if touched.destroyed then
        addNewTorrent ⟨deleteEntry s1.registry magnetUrl, s1.addCalls⟩ magnetUrl now
      else
        match findVideoFile touched.files with
        | some vf => (s1, .existing touched.infoHash vf.name)
        | none => addNewTorrent s1 magnetUrl now
    | none => addNewTorrent s magnetUrl now

/-- Environment/request events driving the registry: a `POST /api/stream`
request, the engine delivering metadata for a torrent (fixing its file
list), or the engine marking a torrent handle destroyed. -/
inductive Event where
  | request (magnet : String) (now : Nat)
  | metadata (magnet : String) (files : List FileInfo)
  | markDestroyed (magnet : String)
  deriving Repr, DecidableEq

/-- Apply one event to the server state. -/
def applyEvent (s : ServerState) (e : Event) : ServerState :=
  match e with
  | .request m now => (streamPost s m now).1
  | .metadata m files =>
    ⟨s.registry.map (fun x => if x.magnet == m then { x with files := files } else x),
     s.addCalls⟩
  | .markDestroyed m =>
    ⟨s.registry.map (fun x => if x.magnet == m then { x with destroyed := true } else x),
     s.addCalls⟩

/-- Run a sequence of events from the initial state (empty map, no
`client.add` calls yet). -/
def runEvents (evs : List Event) : ServerState :=
  evs.foldl applyEvent ⟨[], 0⟩

/-! ## Timestamp refresh (`lastAccessed`) on the GET endpoints

`GET /api/torrent/:torrentId/info` (lines 490–496) and
`GET /api/torrent/:torrentId/download` (lines 623–629) both run

```
for (const [magnetUrl, data] of activeTorrents.entries()) {
  if (data.torrent.infoHash === torrentId) { data.lastAccessed = Date.now(); break; }
}
```

after the torrent-found check. The stream handler
`GET /api/torrent/:torrentId/stream` (lines 341–478) never references
`activeTorrents` at all. -/

/-- Refresh `lastAccessed` of the first registry entry whose torrent has
the given `infoHash` (the `for ... break` loop above). -/
def touchFirstByInfoHash : Registry → Nat → Nat → Registry
  | [], _, _ => []
  | e :: rest, torrentId, now =>
    if e.infoHash == torrentId then { e with lastAccessed := now } :: rest
    else e :: touchFirstByInfoHash rest torrentId now

/-- Registry effect of `GET /api/torrent/:torrentId/info`: touch after the
404 torrent-lookup check. -/
def infoGetRegistry (reg : Registry) (torrentId now : Nat) (torrentFound : Bool) : Registry :=
  if torrentFound then touchFirstByInfoHash reg torrentId now else reg

/-- Registry effect of `GET /api/torrent/:torrentId/download`: identical
touch loop, again after the 404 torrent-lookup check. -/
def downloadGetRegistry (reg : Registry) (torrentId now : Nat) (torrentFound : Bool) : Registry :=
  if torrentFound then touchFirstByInfoHash reg torrentId now else reg

/-- Registry effect of `GET /api/torrent/:torrentId/stream`: the handler
body (lines 341–478) reads `client.torrents` and streams, but contains no
reference to `activeTorrents`, so the registry is returned unchanged in
every branch. -/
def streamGetRegistry (reg : Registry) (_torrentId _now : Nat) : Registry :=
  reg

/-- Modelled from the spec: "Every stream open/close, regardless of
outcome, must refresh `lastAccessedAt` via `touch`" — the registry effect
the stream handler would have if it ran the same touch loop as the info
and download handlers. -/
def streamGetRegistrySpec (reg : Registry) (torrentId now : Nat) : Registry :=
  touchFirstByInfoHash reg torrentId now

/-! ## The streaming gateway (`GET /api/torrent/:torrentId/stream`, lines 341–478) -/

/-- The engine-side view of the torrent the stream/download handlers find
in `client.torrents`. -/
structure TorrentView where
  files : List FileInfo
  destroyed : Bool
  deriving Repr, DecidableEq

/-- The response of the stream handler: the final status code, the headers
the claims talk about, the byte range handed to
`videoFile.createReadStream({ start, end })` (if any), and the error body
(if any). Express sends headers only on the first body write, so a
`res.status(...)` after `setHeader` calls still controls the final status. -/
structure StreamResult where
  status : Nat
  contentType : Option String
  contentRange : Option String
  contentLength : Option Int
  streamedRange : Option (Int × Int)
  errorBody : Option String
  deriving Repr, DecidableEq

/-- The `Content-Type` table at lines 371–374. -/
def contentTypeFor (name : String) : String :=
  if strEndsWith name ".mkv" then "video/x-matroska"
  else if strEndsWith name ".avi" then "video/x-msvideo"
  else if strEndsWith name ".webm" then "video/webm"
  else "video/mp4"

/-- The `createStream(start, end)` helper (lines 388–452): repair a
negative `start` to 0, clamp `end` to `length - 1`, then 416 when
`start > end`, 410 when the torrent is destroyed, otherwise open the read
stream for exactly the clamped range. -/
def createStream (fileLength : Int) (destroyed : Bool) (res : StreamResult)
    (start e : Int) : StreamResult :=
  let start := if start < 0 then 0 else start
  let e := if fileLength ≤ e then fileLength - 1 else e
  if e < start then
    { res with status := 416, errorBody := some "Range Not Satisfiable", streamedRange := none }
  else if destroyed then
    { res with status := 410, errorBody := some "Torrent no longer available", streamedRange := none }
  else
    { res with streamedRange := some (start, e) }

/-- `range.replace(/bytes=/, '').split('-')` (shared verbatim by the
stream handler at line 455 and the download handler at line 658). -/
def rangeParts (r : String) : List String :=
  strSplitOn '-' (jsReplaceFirst "bytes=" r)

/-- `const start = parseInt(parts[0], 10)`. -/
def parseRangeStart (r : String) : Option Int :=
  jsParseInt ((rangeParts r).headD "")

/-- `const end = parts[1] ? parseInt(parts[1], 10) : videoFile.length - 1`
(an absent or empty `parts[1]` is falsy and defaults to `length - 1`). -/
def parseRangeEnd (r : String) (fileLength : Int) : Option Int :=
  match (rangeParts r)[1]? with
  | some p => if p = "" then some (fileLength - 1) else jsParseInt p
  | none => some (fileLength - 1)

/-- The whole stream handler. Branch order follows the source: 404 when
the torrent is not in `client.torrents`, 404 when no allow-listed video
file exists, 410 when the torrent is destroyed, then headers, then the
range branch (`if (range)`, with an empty header string being falsy). -/
def streamGet (torrent : Option TorrentView) (range : Option String) : StreamResult :=
  match torrent with
  | none =>
    { status := 404, contentType := none, contentRange := none, contentLength := none,
      streamedRange := none, errorBody := some "Torrent not found" }
  | some t =>
    match findVideoFile t.files with
    | none =>
      { status := 404, contentType := none, contentRange := none, contentLength := none,
        streamedRange := none, errorBody := some "No video file found in torrent" }
    | some videoFile =>
      if t.destroyed then
        { status := 410, contentType := none, contentRange := none, contentLength := none,
          streamedRange := none, errorBody := some "Torrent has been destroyed" }
      else
        let res : StreamResult :=
          { status := 200, contentType := some (contentTypeFor videoFile.name),
            contentRange := none, contentLength := some videoFile.length,
            streamedRange := none, errorBody := none }
        match range with
        | some r =>
          if r = "" then createStream videoFile.length t.destroyed res 0 (videoFile.length - 1)
          else
            match parseRangeStart r, parseRangeEnd r videoFile.length with
            | some start, some e =>
              let chunksize := e - start + 1
              let L := videoFile.length
              let res :=
                { res with
                  status := 206,
                  contentRange := some (s!"bytes {start}-{e}/{L}"),
                  contentLength := some chunksize }
              createStream videoFile.length t.destroyed res start e
            | _, _ => { res with status := 400, errorBody := some "Invalid range" }
        | none => createStream videoFile.length t.destroyed res 0 (videoFile.length - 1)

/-! ## The download endpoint (`GET /api/torrent/:torrentId/download`, lines 614–709) -/

/-- The regex character class `[a-zA-Z0-9.-]` of the filename sanitizer,
by code point: lowercase letters, uppercase letters, digits, `.` (46)
and `-` (45). -/
def isFilenameSafe (c : Char) : Bool :=
  (97 ≤ c.toNat && c.toNat ≤ 122) || (65 ≤ c.toNat && c.toNat ≤ 90) ||
  (48 ≤ c.toNat && c.toNat ≤ 57) || c.toNat == 46 || c.toNat == 45

/-- `videoFile.name.replace(/[^a-zA-Z0-9.-]/g, '_')` (line 648). -/
def sanitizeFileName (name : String) : String :=
  ⟨name.data.map (fun c => if isFilenameSafe c then c else '_')⟩

/-- The response of the download handler. -/
structure DownloadResult where
  status : Nat
  contentDisposition : Option String
  contentRange : Option String
  contentLength : Option Int
  streamedRange : Option (Int × Int)
  errorBody : Option String
  deriving Repr, DecidableEq

/-- The download handler (its registry touch is `downloadGetRegistry`
above). Unlike the stream handler there is no `createStream` helper: a
parsed range is used unclamped, and `isNaN(start) || isNaN(end) ||
start > end` yields 416; the full-file branch streams `[0, length - 1]`. -/
def downloadGet (torrent : Option TorrentView) (range : Option String) : DownloadResult :=
  match torrent with
  | none =>
    { status := 404, contentDisposition := none, contentRange := none, contentLength := none,
      streamedRange := none, errorBody := some "Torrent not found" }
  | some t =>
    match findVideoFile t.files with
    | none =>
      { status := 404, contentDisposition := none, contentRange := none, contentLength := none,
        streamedRange := none, errorBody := some "No video file found in torrent" }
    | some videoFile =>
      if t.destroyed then
        { status := 410, contentDisposition := none, contentRange := none, contentLength := none,
          streamedRange := none, errorBody := some "Torrent has been destroyed" }
      else
        let fileName := sanitizeFileName videoFile.name
        let res : DownloadResult :=
          { status := 200,
            contentDisposition := some ("attachment; filename=\"" ++ fileName ++ "\""),
            contentRange := none, contentLength := some videoFile.length,
            streamedRange := none, errorBody := none }
        match range with
        | some r =>
          if r = "" then { res with streamedRange := some (0, videoFile.length - 1) }
          else
            match parseRangeStart r, parseRangeEnd r videoFile.length with
            | some start, some e =>
              if e < start then
                { res with status := 416, errorBody := some "Range Not Satisfiable" }
              else
                let L := videoFile.length
                { res with
                  status := 206,
                  contentRange := some (s!"bytes {start}-{e}/{L}"),
                  contentLength := some (e - start + 1),
                  streamedRange := some (start, e) }
            | _, _ => { res with status := 416, errorBody := some "Range Not Satisfiable" }
        | none => { res with streamedRange := some (0, videoFile.length - 1) }

/-! ## The piece-priority policy

`torrent.on('download', ...)` (lines 293–326) and the `client.add`
callback (lines 184–215). `torrent.progress` is the exact ratio
`received / totalLength`, embedded as the two counters; the float
comparison `progress > 0.01` becomes `100 * received > totalLength` and
`Math.floor(progress * pieces.length)` becomes
`received * numPieces / totalLength` (exact integer division). -/

/-- `for (let i = lo; i < hi; i++)` collecting the indices visited. -/
def jsLoopRange (lo hi : Nat) : List Nat :=
  List.range' lo (hi - lo)

/-- The `'download'` event handler: only when files are known and
`progress > 0.01`, find the video file and, for every piece index in
`[currentPiece, min(currentPiece + 20, numPieces))`, raise the priority
of the pieces that exist (are non-null with a `priority` function) and
are not `done`. The returned list is the set of piece indices whose
priority is raised by the tick. -/
def onDownloadTick (files : List FileInfo) (received totalLength numPieces : Nat)
    (pieceExists pieceDone : Nat → Bool) : List Nat :=
  if files.length > 0 ∧ 100 * received > totalLength then
    match findVideoFile files with
    | some _ =>
      let currentPiece := received * numPieces / totalLength
      let bufferAhead := 20
      (jsLoopRange currentPiece (min (currentPiece + bufferAhead) numPieces)).filter
        (fun i => pieceExists i && !(pieceDone i))
    | none => []
  else []

/-- The `client.add` callback at torrent creation: when files are known, a
video file matches and `torrent.pieces` is present, pin priority on pieces
`[0, Math.min(numPieces, 100))` that exist (no `done` check here). -/
def onTorrentAddInit (files : List FileInfo) (piecesPresent : Bool) (numPieces : Nat)
    (pieceExists : Nat → Bool) : List Nat :=
  if files.length > 0 then
    match findVideoFile files with
    | some _ =>
      if piecesPresent then (jsLoopRange 0 (min numPieces 100)).filter pieceExists
      else []
    | none => []
  else []

/-- Modelled from the spec: "On every engine progress tick (bytes
received), compute `currentPieceIndex = floor(progressRatio *
totalPieceCount)` and request the engine raise priority for pieces in
`[currentPieceIndex, currentPieceIndex + BUFFER_AHEAD)`, clamped to the
valid piece index range", silently skipping indices the engine cannot
resolve — with no condition on the progress ratio. -/
def specTickPriorities (received totalLength numPieces : Nat)
    (resolvable : Nat → Bool) : List Nat :=
  let currentPieceIndex := received * numPieces / totalLength
  (jsLoopRange currentPieceIndex (min (currentPieceIndex + 20) numPieces)).filter resolvable

/-! ## The search endpoint (`GET /api/search`, lines 712–804)

Each of the three category fetches resolves `[]` on any network or JSON
error (`.on('error', () => resolve([]))` and the `catch` around
`JSON.parse`), so an upstream failure is invisible to the rest of the
handler and the surrounding `try/catch` (which would answer 500) cannot
fire from it. A failed category is therefore embedded as `none`,
contributing `[]`. The `formatBytes` size string and the
`toLocaleDateString` upload date use floating-point `Math.log` and
locale state; no claim touches them, so the raw strings are carried
through unformatted. -/

/-- One parsed apibay result row (all fields arrive as strings). -/
structure RawResult where
  id : String
  name : String
  info_hash : String
  size : String
  seeders : String
  leechers : String
  category : String
  added : String
  deriving Repr, DecidableEq

/-- The category table at lines 817–828; the duplicate `'208'` key makes
the later value (`'TV HD'`) win, per JS object-literal semantics. -/
def getCategoryName (categoryId : String) : String :=
  if categoryId = "200" then "Movies"
  else if categoryId = "201" then "Movies DVDR"
  else if categoryId = "207" then "Movies HD"
  else if categoryId = "208" then "TV HD"
  else if categoryId = "209" then "Movies BluRay"
  else if categoryId = "205" then "TV Shows"
  else if categoryId = "299" then "Video"
  else if categoryId = "501" then "TV"
  else if categoryId = "503" then "TV HD"
  else "Video"

/-- `parseInt(x || 0)`: an empty string is falsy and yields 0; otherwise
`parseInt`, whose `NaN` is `none`. -/
def jsParseIntField (s : String) : Option Int :=
  if s = "" then some 0 else jsParseInt s

/-- The formatted search result object (lines 754–764); `size` and
`uploaded` are carried raw, see the section comment. -/
structure FormattedResult where
  id : String
  name : String
  infoHash : String
  size : String
  seeders : Option Int
  leechers : Option Int
  magnet : String
  category : String
  deriving Repr, DecidableEq

/-- The `.map(result => ({...}))` step (the `encodeURIComponent` calls in
the magnet link are omitted; no claim touches the link text). -/
def formatResult (r : RawResult) : FormattedResult :=
  { id := r.id, name := r.name, infoHash := r.info_hash, size := r.size,
    seeders := jsParseIntField r.seeders, leechers := jsParseIntField r.leechers,
    magnet := "magnet:?xt=urn:btih:" ++ r.info_hash ++ "&dn=" ++ r.name,
    category := getCategoryName r.category }

/-- `parseInt(a.seeders || 0)` recomputed on the formatted object inside
the video filter and the sort comparator: a `NaN` seeders value is falsy
and yields 0. -/
def seedKey (fr : FormattedResult) : Int :=
  fr.seeders.getD 0

/-- The video-extension part of the lenient filter (lines 769–771). -/
def hasVideoExt (lname : String) : Bool :=
  containsSub lname ".mp4" || containsSub lname ".mkv" || containsSub lname ".avi" ||
  containsSub lname ".webm" || containsSub lname ".m4v" || containsSub lname ".mov"

/-- The video-keyword part of the lenient filter (lines 772–776). -/
def hasVideoKeywords (lname : String) : Bool :=
  containsSub lname "1080p" || containsSub lname "720p" || containsSub lname "480p" ||
  containsSub lname "4k" || containsSub lname "2160p" || containsSub lname "hdr" ||
  containsSub lname "bluray" || containsSub lname "dvdrip" ||
  containsSub lname "webrip" || containsSub lname "hdtv"

/-- The whole `.filter(result => ...)` video heuristic (lines 765–781). -/
def videoFilter (fr : FormattedResult) : Bool :=
  let lname := jsToLower fr.name
  hasVideoExt lname || hasVideoKeywords lname || 5 < seedKey fr

/-- `Array.prototype.slice(a, b)`: the elements with indices in `[a, b)`. -/
def jsSlice {α : Type} (a b : Nat) (l : List α) : List α :=
  (l.take b).drop a

/-- Insert into a list sorted descending by `seedKey`, after entries with
an equal or larger key (stability). -/
def insertBySeedersDesc (x : FormattedResult) :
    List FormattedResult → List FormattedResult
  | [] => [x]
  | y :: ys =>
    if seedKey y ≤ seedKey x then x :: y :: ys
    else y :: insertBySeedersDesc x ys

/-- `.sort((a, b) => seedersB - seedersA)`: a stable descending sort by
seeder count. -/
def sortBySeedersDesc (l : List FormattedResult) : List FormattedResult :=
  l.foldr insertBySeedersDesc []

/-- The search response as far as the claims need it. -/
structure SearchResponse where
  status : Nat
  results : List FormattedResult
  total : Nat
  deriving Repr, DecidableEq

/-- The whole `GET /api/search` handler: 400 for a falsy or
whitespace-only query (`!query || query.trim().length === 0`), otherwise
concatenate the per-category results (a failed category contributed `[]`),
keep rows with a truthy `info_hash`, paginate with `slice`, format,
filter by the video heuristic, and sort by seeders descending. -/
def searchGet (query : Option String) (page limit : Nat)
    (upstream : List (Option (List RawResult))) : SearchResponse :=
  if query = none ∨ jsTrim (query.getD "") = "" then
    { status := 400, results := [], total := 0 }
  else
    let searchResults := (upstream.map (fun o => o.getD [])).flatten
    let formattedResults :=
      sortBySeedersDesc
        (((jsSlice ((page - 1) * limit) (page * limit)
            (searchResults.filter (fun r => r.info_hash != ""))).map formatResult).filter
          videoFilter)
    { status := 200, results := formattedResults, total := formattedResults.length }

/-! ## Definitions following the spec's words, for comparison -/

/-- Modelled from the spec: the eviction victim is "the live session with
the smallest `lastAccessedAt` among all live sessions, excluding the
resource key currently being requested, with ties broken by smallest
`createdAt`". -/
def specClaimVictim (requested : String) (reg : Registry) : Option TorrentEntry :=
  (reg.filter (fun e => e.magnet != requested)).foldl
    (fun acc e =>
      match acc with
      | none => some e
      | some m =>
        if e.lastAccessed < m.lastAccessed ∨
            (e.lastAccessed = m.lastAccessed ∧ e.createdAt < m.createdAt) then some e
        else some m)
    none

/-- Modelled from the spec: the stream open "fails with
`RangeNotSatisfiable` when `start > end`, `start < 0`, or
`start >= length` after clamping `end` to `length-1`" — in particular a
negative start is claimed to be rejected, not repaired. -/
def claimed416 (start e fileLength : Int) : Prop :=
  start > min e (fileLength - 1) ∨ start < 0 ∨ start ≥ fileLength

instance (start e fileLength : Int) : Decidable (claimed416 start e fileLength) := by
  unfold claimed416; infer_instance

/-! ## Helper lemmas: the stable sort and its first minimum -/

theorem mem_insertByLastAccessed {y x : TorrentEntry} {l : List TorrentEntry} :
    y ∈ insertByLastAccessed x l ↔ y = x ∨ y ∈ l := by
  induction l with
  | nil => simp [insertByLastAccessed]
  | cons z zs ih =>
    simp only [insertByLastAccessed]
    split
    · simp [List.mem_cons]
    · simp only [List.mem_cons, ih]
      tauto

theorem mem_sortByLastAccessed {y : TorrentEntry} {l : List TorrentEntry} :
    y ∈ sortByLastAccessed l ↔ y ∈ l := by
  induction l with
  | nil => simp [sortByLastAccessed]
  | cons x xs ih =>
    show y ∈ insertByLastAccessed x (sortByLastAccessed xs) ↔ _
    rw [mem_insertByLastAccessed, ih, List.mem_cons]

theorem headQ_insertByLastAccessed (x : TorrentEntry) (l : List TorrentEntry) :
    (insertByLastAccessed x l).head? =
      some (match l.head? with
            | none => x
            | some y => if x.lastAccessed ≤ y.lastAccessed then x else y) := by
  cases l with
  | nil => rfl
  | cons y ys =>
    by_cases h : x.lastAccessed ≤ y.lastAccessed
    · simp [insertByLastAccessed, h]
    · simp [insertByLastAccessed, h]

theorem headQ_sortByLastAccessed (l : List TorrentEntry) :
    (sortByLastAccessed l).head? = firstMinLA l := by
  induction l with
  | nil => rfl
  | cons x xs ih =>
    show (insertByLastAccessed x (sortByLastAccessed xs)).head? = _
    rw [headQ_insertByLastAccessed, ih]
    simp only [firstMinLA]
    cases firstMinLA xs with
    | none => rfl
    | some m =>
      by_cases h : x.lastAccessed ≤ m.lastAccessed <;> simp [h]

theorem firstMinLA_eq_none {l : List TorrentEntry} :
    firstMinLA l = none ↔ l = [] := by
  cases l with
  | nil => simp [firstMinLA]
  | cons x xs =>
    simp only [firstMinLA]
    cases firstMinLA xs with
    | none => simp
    | some m =>
      by_cases h : x.lastAccessed ≤ m.lastAccessed <;> simp [h]

/-- `firstMinLA` picks the earliest entry with the minimal `lastAccessed`:
everything before it is strictly larger, everything after it at least as
large. -/
theorem firstMinLA_spec {l : List TorrentEntry} {v : TorrentEntry}
    (h : firstMinLA l = some v) :
    ∃ pre post, l = pre ++ v :: post
      ∧ (∀ e ∈ pre, v.lastAccessed < e.lastAccessed)
      ∧ (∀ e ∈ post, v.lastAccessed ≤ e.lastAccessed) := by
  induction l generalizing v with
  | nil => simp [firstMinLA] at h
  | cons x xs ih =>
    simp only [firstMinLA] at h
    cases hxs : firstMinLA xs with
    | none =>
      rw [hxs] at h
      have h' : some x = some v := h
      cases h'
      have hnil : xs = [] := firstMinLA_eq_none.mp hxs
      exact ⟨[], xs, rfl, by simp, by simp [hnil]⟩
    | some m =>
      rw [hxs] at h
      have h' : (if x.lastAccessed ≤ m.lastAccessed then some x else some m) = some v := h
      obtain ⟨pre, post, heq, hpre, hpost⟩ := ih hxs
      by_cases hle : x.lastAccessed ≤ m.lastAccessed
      · rw [if_pos hle] at h'
        cases h'
        refine ⟨[], xs, rfl, by simp, ?_⟩
        intro e he
        rw [heq] at he
        rcases List.mem_append.mp he with h1 | h1
        · exact le_of_lt (lt_of_le_of_lt hle (hpre e h1))
        · rcases List.mem_cons.mp h1 with h2 | h2
          · exact h2 ▸ hle
          · exact le_trans hle (hpost e h2)
      · rw [if_neg hle] at h'
        cases h'
        refine ⟨x :: pre, post, by rw [heq, List.cons_append], ?_, hpost⟩
        intro e he
        rcases List.mem_cons.mp he with h1 | h1
        · exact h1 ▸ lt_of_not_le hle
        · exact hpre e h1

theorem firstMinLA_mem {l : List TorrentEntry} {v : TorrentEntry}
    (h : firstMinLA l = some v) : v ∈ l := by
  obtain ⟨pre, post, heq, -, -⟩ := firstMinLA_spec h
  rw [heq]
  exact List.mem_append.mpr (Or.inr (List.mem_cons_self _ _))

theorem firstMinLA_le {l : List TorrentEntry} {v : TorrentEntry}
    (h : firstMinLA l = some v) : ∀ e ∈ l, v.lastAccessed ≤ e.lastAccessed := by
  obtain ⟨pre, post, heq, hpre, hpost⟩ := firstMinLA_spec h
  intro e he
  rw [heq] at he
  rcases List.mem_append.mp he with h1 | h1
  · exact le_of_lt (hpre e h1)
  · rcases List.mem_cons.mp h1 with h2 | h2
    · exact h2 ▸ le_refl _
    · exact hpost e h2

theorem firstMinLA_isSome {l : List TorrentEntry} (h : l ≠ []) :
    ∃ v, firstMinLA l = some v := by
  cases hl : firstMinLA l with
  | none => exact absurd (firstMinLA_eq_none.mp hl) h
  | some v => exact ⟨v, rfl⟩

/-! ## Helper lemmas: registry primitives -/

theorem keyList_mem {reg : Registry} {m : String} :
    m ∈ keyList reg ↔ ∃ e ∈ reg, e.magnet = m := by
  simp [keyList, List.mem_map]

theorem deleteEntry_sublist (reg : Registry) (m : String) :
    (deleteEntry reg m).Sublist reg :=
  List.filter_sublist reg

theorem mem_deleteEntry {reg : Registry} {m : String} {e : TorrentEntry} :
    e ∈ deleteEntry reg m ↔ e ∈ reg ∧ e.magnet ≠ m := by
  simp [deleteEntry, List.mem_filter]

theorem length_deleteEntry_lt {reg : Registry} {v : TorrentEntry} (h : v ∈ reg) :
    (deleteEntry reg v.magnet).length < reg.length := by
  induction reg with
  | nil => cases h
  | cons a l ih =>
    rcases List.mem_cons.mp h with h1 | h1
    · subst h1
      unfold deleteEntry
      rw [List.filter_cons]
      simp only [bne_self_eq_false, Bool.false_eq_true, if_false]
      exact Nat.lt_succ_of_le (List.length_filter_le _ _)
    · unfold deleteEntry
      rw [List.filter_cons]
      split
      · simpa [deleteEntry] using Nat.succ_lt_succ (ih h1)
      · exact Nat.lt_succ_of_le (Nat.le_of_lt (by simpa [deleteEntry] using ih h1))

/-- With no duplicate keys, deleting the key of the entry at a known
position removes exactly that entry. -/
theorem deleteEntry_eq_of_nodup {pre post : Registry} {v : TorrentEntry}
    (h : (keyList (pre ++ v :: post)).Nodup) :
    deleteEntry (pre ++ v :: post) v.magnet = pre ++ post := by
  have hkeys : keyList (pre ++ v :: post) = keyList pre ++ v.magnet :: keyList post := by
    simp [keyList]
  rw [hkeys] at h
  rw [List.nodup_append] at h
  obtain ⟨-, hcons, hdisj⟩ := h
  have hpre : ∀ e ∈ pre, e.magnet ≠ v.magnet := by
    intro e he heq
    exact hdisj (keyList_mem.mpr ⟨e, he, heq⟩) (List.mem_cons_self _ _)
  have hpost : ∀ e ∈ post, e.magnet ≠ v.magnet := by
    intro e he heq
    rw [List.nodup_cons] at hcons
    exact hcons.1 (heq ▸ keyList_mem.mpr ⟨e, he, rfl⟩)
  unfold deleteEntry
  rw [List.filter_append]
  congr 1
  · exact List.filter_eq_self.mpr (fun e he => by simpa using hpre e he)
  · rw [List.filter_cons]
    simp only [bne_self_eq_false, Bool.false_eq_true, if_false]
    exact List.filter_eq_self.mpr (fun e he => by simpa using hpost e he)

theorem any_magnet_iff {reg : Registry} {m : String} :
    reg.any (fun x => x.magnet == m) = true ↔ m ∈ keyList reg := by
  rw [List.any_eq_true]
  constructor
  · rintro ⟨x, hx, hbeq⟩
    exact keyList_mem.mpr ⟨x, hx, beq_iff_eq.mp hbeq⟩
  · intro h
    obtain ⟨e, he, heq⟩ := keyList_mem.mp h
    exact ⟨e, he, beq_iff_eq.mpr heq⟩

theorem setEntry_of_not_mem {reg : Registry} {e : TorrentEntry}
    (h : e.magnet ∉ keyList reg) : setEntry reg e = reg ++ [e] := by
  unfold setEntry
  rw [if_neg]
  intro hany
  exact h (any_magnet_iff.mp hany)

theorem keyList_setEntry_of_mem {reg : Registry} {e : TorrentEntry}
    (h : e.magnet ∈ keyList reg) : keyList (setEntry reg e) = keyList reg := by
  unfold setEntry
  rw [if_pos (any_magnet_iff.mpr h)]
  unfold keyList
  rw [List.map_map]
  apply List.map_congr_left
  intro a _
  by_cases ha : a.magnet = e.magnet
  · simp [Function.comp, beq_iff_eq, ha]
  · simp [Function.comp, beq_iff_eq, ha]

theorem length_setEntry_of_mem {reg : Registry} {e : TorrentEntry}
    (h : e.magnet ∈ keyList reg) : (setEntry reg e).length = reg.length := by
  have := congrArg List.length (keyList_setEntry_of_mem h)
  simpa [keyList] using this

/-! ## Helper lemmas: `cleanupOldTorrents` -/

theorem foldl_delete_sublist (vs : List TorrentEntry) (m : String) (reg : Registry) :
    (vs.foldl (fun r v => if v.magnet ≠ m then deleteEntry r v.magnet else r) reg).Sublist
      reg := by
  induction vs generalizing reg with
  | nil => exact List.Sublist.refl _
  | cons v vs ih =>
    rw [List.foldl_cons]
    refine List.Sublist.trans (ih _) ?_
    split
    · exact deleteEntry_sublist _ _
    · exact List.Sublist.refl _

theorem cleanup_sublist (m : String) (reg : Registry) :
    (cleanupOldTorrents m reg).Sublist reg := by
  simp only [cleanupOldTorrents]
  split
  · exact foldl_delete_sublist _ _ _
  · exact List.Sublist.refl _

theorem mem_cleanup_of_key {reg : Registry} {m : String} {e : TorrentEntry}
    (he : e ∈ reg) (hk : e.magnet = m) : e ∈ cleanupOldTorrents m reg := by
  have main : ∀ (vs : List TorrentEntry) (r : Registry), e ∈ r →
      e ∈ vs.foldl (fun r v => if v.magnet ≠ m then deleteEntry r v.magnet else r) r := by
    intro vs
    induction vs with
    | nil => intro r hr; exact hr
    | cons v vs ih =>
      intro r hr
      rw [List.foldl_cons]
      apply ih
      split
      · next hvm =>
        exact mem_deleteEntry.mpr ⟨hr, by rw [hk]; exact fun hc => hvm hc.symm⟩
      · exact hr
  simp only [cleanupOldTorrents]
  split
  · exact main _ _ he
  · exact he

/-- At exactly `MAX_ACTIVE_TORRENTS` entries, none of them keyed by the
requested magnet, `cleanupOldTorrents` deletes exactly the first entry
with minimal `lastAccessed`. -/
theorem cleanup_at_capacity {reg : Registry} {m : String}
    (hlen : reg.length = MAX_ACTIVE_TORRENTS)
    (hkeys : ∀ e ∈ reg, e.magnet ≠ m) :
    ∃ v, firstMinLA reg = some v ∧
      cleanupOldTorrents m reg = deleteEntry reg v.magnet := by
  have hne : reg ≠ [] := by
    intro h
    rw [h] at hlen
    simp [MAX_ACTIVE_TORRENTS] at hlen
  obtain ⟨v, hv⟩ := firstMinLA_isSome hne
  refine ⟨v, hv, ?_⟩
  have hhead : (sortByLastAccessed reg).head? = some v := by
    rw [headQ_sortByLastAccessed, hv]
  obtain ⟨t, ht⟩ : ∃ t, sortByLastAccessed reg = v :: t := by
    cases hs : sortByLastAccessed reg with
    | nil => rw [hs] at hhead; cases hhead
    | cons a t =>
      rw [hs] at hhead
      cases hhead
      exact ⟨t, rfl⟩
  simp only [cleanupOldTorrents, hlen, MAX_ACTIVE_TORRENTS, le_refl, if_true, ht]
  norm_num
  intro hc
  exact absurd hc (hkeys v (firstMinLA_mem hv))

/-! ## Helper lemmas: the capacity invariant of the registry -/

/-- The registry invariant: at most `MAX_ACTIVE_TORRENTS` entries, no
duplicate keys. -/
def Inv (s : ServerState) : Prop :=
  s.registry.length ≤ MAX_ACTIVE_TORRENTS ∧ (keyList s.registry).Nodup

theorem inv_addNewTorrent {s : ServerState} {m : String} {now : Nat}
    (h : Inv s) : Inv (addNewTorrent s m now).1 := by
  obtain ⟨hlen, hnodup⟩ := h
  have hclean_sub := cleanup_sublist m s.registry
  have hclean_len : (cleanupOldTorrents m s.registry).length ≤ s.registry.length :=
    hclean_sub.length_le
  have hclean_nodup : (keyList (cleanupOldTorrents m s.registry)).Nodup :=
    (hclean_sub.map (fun e => e.magnet)).nodup hnodup
  by_cases hmem : m ∈ keyList s.registry
  · -- the requested key is present: it survives cleanup and `set` replaces in place
    obtain ⟨e, he, hem⟩ := keyList_mem.mp hmem
    have hkeep : m ∈ keyList (cleanupOldTorrents m s.registry) :=
      keyList_mem.mpr ⟨e, mem_cleanup_of_key he hem, hem⟩
    constructor
    · simp only [addNewTorrent]
      rw [length_setEntry_of_mem hkeep]
      exact le_trans hclean_len hlen
    · simp only [addNewTorrent]
      rw [keyList_setEntry_of_mem hkeep]
      exact hclean_nodup
  · -- a fresh key: `set` appends after cleanup has made room
    have hnotclean : m ∉ keyList (cleanupOldTorrents m s.registry) := by
      intro hc
      exact hmem (List.Sublist.mem hc (hclean_sub.map (fun e => e.magnet)))
    have happend : setEntry (cleanupOldTorrents m s.registry) (newTorrentEntry m s.addCalls now)
        = cleanupOldTorrents m s.registry ++ [newTorrentEntry m s.addCalls now] :=
      setEntry_of_not_mem hnotclean
    have hroom : (cleanupOldTorrents m s.registry).length + 1 ≤ MAX_ACTIVE_TORRENTS := by
      rcases Nat.lt_or_ge s.registry.length MAX_ACTIVE_TORRENTS with hlt | hge
      · exact Nat.succ_le_of_lt (Nat.lt_of_le_of_lt hclean_len hlt)
      · have hcap : s.registry.length = MAX_ACTIVE_TORRENTS := le_antisymm hlen hge
        have hkeys : ∀ e ∈ s.registry, e.magnet ≠ m := by
          intro e he heq
          exact hmem (keyList_mem.mpr ⟨e, he, heq⟩)
        obtain ⟨v, hv, hdel⟩ := cleanup_at_capacity hcap hkeys
        have hlt : (deleteEntry s.registry v.magnet).length < s.registry.length :=
          length_deleteEntry_lt (firstMinLA_mem hv)
        rw [hdel]
        exact le_of_le_of_eq (Nat.succ_le_of_lt hlt) hcap
    constructor
    · simp only [addNewTorrent]
      rw [happend]
      simpa using hroom
    · simp only [addNewTorrent]
      rw [happend]
      unfold keyList
      rw [List.map_append]
      rw [List.nodup_append]
      refine ⟨hclean_nodup, List.nodup_singleton _, ?_⟩
      intro a ha hb
      simp only [List.map_cons, List.map_nil, List.mem_singleton, newTorrentEntry] at hb
      subst hb
      exact hnotclean ha

theorem lookupEntry_magnet {reg : Registry} {m : String} {data : TorrentEntry}
    (h : lookupEntry reg m = some data) : data.magnet = m := by
  unfold lookupEntry at h
  exact beq_iff_eq.mp (by simpa using List.find?_some h)

theorem lookupEntry_mem {reg : Registry} {m : String} {data : TorrentEntry}
    (h : lookupEntry reg m = some data) : data ∈ reg := by
  unfold lookupEntry at h
  exact List.mem_of_find?_eq_some h

theorem lookupEntry_eq_none {reg : Registry} {m : String} (h : m ∉ keyList reg) :
    lookupEntry reg m = none := by
  unfold lookupEntry
  apply List.find?_eq_none.mpr
  intro x hx hbeq
  exact h (keyList_mem.mpr ⟨x, hx, beq_iff_eq.mp hbeq⟩)

theorem inv_streamPost {s : ServerState} {m : String} {now : Nat}
    (h : Inv s) : Inv (streamPost s m now).1 := by
  obtain ⟨hlen, hnodup⟩ := h
  by_cases hm : m = ""
  · simp only [streamPost, if_pos hm]
    exact ⟨hlen, hnodup⟩
  · cases hfind : lookupEntry s.registry m with
    | none =>
      simp only [streamPost, if_neg hm, hfind]
      exact inv_addNewTorrent ⟨hlen, hnodup⟩
    | some data =>
      have hdmem : data ∈ s.registry := lookupEntry_mem hfind
      have hmem : ({ data with lastAccessed := now } : TorrentEntry).magnet
          ∈ keyList s.registry := by
        show data.magnet ∈ keyList s.registry
        exact keyList_mem.mpr ⟨data, hdmem, rfl⟩
      have hs1len :
          (setEntry s.registry { data with lastAccessed := now }).length
            ≤ MAX_ACTIVE_TORRENTS := by
        rw [length_setEntry_of_mem hmem]
        exact hlen
      have hs1nodup :
          (keyList (setEntry s.registry { data with lastAccessed := now })).Nodup := by
        rw [keyList_setEntry_of_mem hmem]
        exact hnodup
      have hinv1 : Inv ⟨setEntry s.registry { data with lastAccessed := now }, s.addCalls⟩ :=
        ⟨hs1len, hs1nodup⟩
      simp only [streamPost, if_neg hm, hfind]
      by_cases hdes : data.destroyed = true
      · rw [if_pos hdes]
        apply inv_addNewTorrent
        exact ⟨le_trans (deleteEntry_sublist _ _).length_le hs1len,
          ((deleteEntry_sublist _ _).map _).nodup hs1nodup⟩
      · rw [if_neg hdes]
        cases hvf : findVideoFile data.files with
        | some vf =>
          simp only [hvf]
          exact hinv1
        | none =>
          simp only [hvf]
          exact inv_addNewTorrent hinv1

theorem keyList_map_preserving {reg : Registry} {f : TorrentEntry → TorrentEntry}
    (hf : ∀ x, (f x).magnet = x.magnet) : keyList (reg.map f) = keyList reg := by
  show List.map (fun e => e.magnet) (List.map f reg) = List.map (fun e => e.magnet) reg
  rw [List.map_map]
  exact List.map_congr_left (fun a _ => hf a)

theorem inv_applyEvent {s : ServerState} (h : Inv s) (e : Event) :
    Inv (applyEvent s e) := by
  cases e with
  | request m now => exact inv_streamPost h
  | metadata m files =>
    obtain ⟨hlen, hnodup⟩ := h
    constructor
    · show (s.registry.map _).length ≤ MAX_ACTIVE_TORRENTS
      rw [List.length_map]
      exact hlen
    · show (keyList (s.registry.map
        (fun x => if x.magnet == m then { x with files := files } else x))).Nodup
      rw [keyList_map_preserving (by intro x; split <;> rfl)]
      exact hnodup
  | markDestroyed m =>
    obtain ⟨hlen, hnodup⟩ := h
    constructor
    · show (s.registry.map _).length ≤ MAX_ACTIVE_TORRENTS
      rw [List.length_map]
      exact hlen
    · show (keyList (s.registry.map
        (fun x => if x.magnet == m then { x with destroyed := true } else x))).Nodup
      rw [keyList_map_preserving (by intro x; split <;> rfl)]
      exact hnodup

theorem inv_runEvents_from (evs : List Event) (s : ServerState) (h : Inv s) :
    Inv (evs.foldl applyEvent s) := by
  induction evs generalizing s with
  | nil => exact h
  | cons e evs ih => exact ih _ (inv_applyEvent h e)

theorem inv_runEvents (evs : List Event) : Inv (runEvents evs) :=
  inv_runEvents_from evs ⟨[], 0⟩
    ⟨by simp [MAX_ACTIVE_TORRENTS], List.nodup_nil⟩

/-! ## Helper lemmas: the descending seeder sort -/

theorem mem_insertBySeedersDesc {y x : FormattedResult} {l : List FormattedResult} :
    y ∈ insertBySeedersDesc x l ↔ y = x ∨ y ∈ l := by
  induction l with
  | nil => simp [insertBySeedersDesc]
  | cons z zs ih =>
    simp only [insertBySeedersDesc]
    split
    · simp [List.mem_cons]
    · simp only [List.mem_cons, ih]
      tauto

theorem pairwise_insertBySeedersDesc {x : FormattedResult} {l : List FormattedResult}
    (h : l.Pairwise (fun a b => seedKey b ≤ seedKey a)) :
    (insertBySeedersDesc x l).Pairwise (fun a b => seedKey b ≤ seedKey a) := by
  induction l with
  | nil => simp [insertBySeedersDesc]
  | cons z zs ih =>
    rw [List.pairwise_cons] at h
    obtain ⟨hz, hzs⟩ := h
    simp only [insertBySeedersDesc]
    split
    · next hle =>
      rw [List.pairwise_cons]
      refine ⟨?_, List.pairwise_cons.mpr ⟨hz, hzs⟩⟩
      intro b hb
      rcases List.mem_cons.mp hb with h1 | h1
      · exact h1 ▸ hle
      · exact le_trans (hz b h1) hle
    · next hlt =>
      rw [List.pairwise_cons]
      refine ⟨?_, ih hzs⟩
      intro b hb
      rcases mem_insertBySeedersDesc.mp hb with h1 | h1
      · subst h1
        exact le_of_lt (lt_of_not_le hlt)
      · exact hz b h1

theorem pairwise_sortBySeedersDesc (l : List FormattedResult) :
    (sortBySeedersDesc l).Pairwise (fun a b => seedKey b ≤ seedKey a) := by
  induction l with
  | nil => simp [sortBySeedersDesc]
  | cons x xs ih =>
    show (insertBySeedersDesc x (sortBySeedersDesc xs)).Pairwise _
    exact pairwise_insertBySeedersDesc ih

/-! ## Theorems -/

/-- C1: capacity invariant and single-victim eviction. (1) After every
request in any sequence of `POST /api/stream` calls (with arbitrary
interleaved engine events), the registry holds at most
`MAX_ACTIVE_TORRENTS` live sessions. (2) When the registry is at
capacity with no duplicate keys and a request for a fresh magnet
arrives, exactly one victim — the first entry with minimal
`lastAccessed` — is deleted synchronously, and only then is the new
session appended. -/
theorem capacity_invariant :
    (∀ evs : List Event, (runEvents evs).registry.length ≤ MAX_ACTIVE_TORRENTS)
    ∧ (∀ (reg : Registry) (addCalls now : Nat) (m : String),
        (keyList reg).Nodup → reg.length = MAX_ACTIVE_TORRENTS →
        m ∉ keyList reg → m ≠ "" →
        ∃ v, firstMinLA reg = some v ∧ v ∈ reg
          ∧ (∀ e ∈ reg, v.lastAccessed ≤ e.lastAccessed)
          ∧ cleanupOldTorrents m reg = deleteEntry reg v.magnet
          ∧ (streamPost ⟨reg, addCalls⟩ m now).1.registry
              = deleteEntry reg v.magnet ++ [newTorrentEntry m addCalls now]) := by
  constructor
  · intro evs
    exact (inv_runEvents evs).1
  · intro reg addCalls now m hnodup hlen hnot hm
    have hkeys : ∀ e ∈ reg, e.magnet ≠ m :=
      fun e he heq => hnot (keyList_mem.mpr ⟨e, he, heq⟩)
    obtain ⟨v, hv, hdel⟩ := cleanup_at_capacity hlen hkeys
    refine ⟨v, hv, firstMinLA_mem hv, firstMinLA_le hv, hdel, ?_⟩
    have hfind : lookupEntry reg m = none := lookupEntry_eq_none hnot
    simp only [streamPost, if_neg hm, hfind, addNewTorrent, hdel]
    apply setEntry_of_not_mem
    intro hc
    exact hnot (List.Sublist.mem hc ((deleteEntry_sublist reg v.magnet).map _))

/-- C1, witness: the invariant evaluated on a concrete request sequence,
and the single-eviction shape at a concrete registry at capacity. -/
theorem capacity_invariant_witness :
    (runEvents [Event.request "a" 0, Event.request "b" 1, Event.request "c" 2,
      Event.request "d" 3]).registry.length ≤ MAX_ACTIVE_TORRENTS
    ∧ (∃ v, firstMinLA [⟨"a", 0, 0, 0, false, []⟩, ⟨"b", 1, 5, 1, false, []⟩,
          ⟨"c", 2, 10, 2, false, []⟩] = some v
        ∧ v ∈ ([⟨"a", 0, 0, 0, false, []⟩, ⟨"b", 1, 5, 1, false, []⟩,
            ⟨"c", 2, 10, 2, false, []⟩] : Registry)
        ∧ (∀ e ∈ ([⟨"a", 0, 0, 0, false, []⟩, ⟨"b", 1, 5, 1, false, []⟩,
            ⟨"c", 2, 10, 2, false, []⟩] : Registry), v.lastAccessed ≤ e.lastAccessed)
        ∧ cleanupOldTorrents "d" [⟨"a", 0, 0, 0, false, []⟩, ⟨"b", 1, 5, 1, false, []⟩,
            ⟨"c", 2, 10, 2, false, []⟩]
          = deleteEntry [⟨"a", 0, 0, 0, false, []⟩, ⟨"b", 1, 5, 1, false, []⟩,
            ⟨"c", 2, 10, 2, false, []⟩] v.magnet
        ∧ (streamPost ⟨[⟨"a", 0, 0, 0, false, []⟩, ⟨"b", 1, 5, 1, false, []⟩,
            ⟨"c", 2, 10, 2, false, []⟩], 3⟩ "d" 20).1.registry
          = deleteEntry [⟨"a", 0, 0, 0, false, []⟩, ⟨"b", 1, 5, 1, false, []⟩,
            ⟨"c", 2, 10, 2, false, []⟩] v.magnet ++ [newTorrentEntry "d" 3 20]) :=
  ⟨capacity_invariant.1 _,
   capacity_invariant.2 _ 3 20 "d" (by decide) (by decide) (by decide) (by decide)⟩

/-- C6 (amended): at capacity, the evicted victim is the live session
with the smallest `lastAccessedAt`, with ties broken by the earliest map
insertion position — not by smallest `createdAt` — and the requested key
is skipped without choosing a substitute victim; concretely, with
sessions A (lastAccessedAt 0), B (5), C (10) and `MAX_SESSIONS = 3`,
requesting the new resource D evicts A and only A. -/
theorem lru_eviction_victim :
    (∀ (reg : Registry) (m : String),
      (keyList reg).Nodup → reg.length = MAX_ACTIVE_TORRENTS → m ∉ keyList reg →
      ∃ v pre post, reg = pre ++ v :: post
        ∧ (∀ e ∈ pre, v.lastAccessed < e.lastAccessed)
        ∧ (∀ e ∈ post, v.lastAccessed ≤ e.lastAccessed)
        ∧ cleanupOldTorrents m reg = pre ++ post)
    ∧ cleanupOldTorrents "D"
        [⟨"A", 0, 0, 0, false, []⟩, ⟨"B", 1, 5, 1, false, []⟩, ⟨"C", 2, 10, 2, false, []⟩]
      = [⟨"B", 1, 5, 1, false, []⟩, ⟨"C", 2, 10, 2, false, []⟩] := by
  constructor
  · intro reg m hnodup hlen hnot
    have hkeys : ∀ e ∈ reg, e.magnet ≠ m :=
      fun e he heq => hnot (keyList_mem.mpr ⟨e, he, heq⟩)
    obtain ⟨v, hv, hdel⟩ := cleanup_at_capacity hlen hkeys
    obtain ⟨pre, post, heq, hpre, hpost⟩ := firstMinLA_spec hv
    refine ⟨v, pre, post, heq, hpre, hpost, ?_⟩
    rw [hdel, heq]
    exact deleteEntry_eq_of_nodup (heq ▸ hnodup)
  · decide

/-- C5 (amended): `createStream` fails with 416 exactly when, after
repairing a negative `start` up to 0 and clamping `end` down to
`length - 1`, `start > end` still holds; a negative start is repaired to
0 — when the repaired range is satisfiable the stream serves
`[0, clamped end]` instead of failing. -/
theorem createStream_416_iff :
    ∀ (fileLength start e : Int) (res : StreamResult), res.status ≠ 416 →
      (((createStream fileLength false res start e).status = 416)
        ↔ min e (fileLength - 1) < max start 0)
      ∧ (start < 0 → ¬ min e (fileLength - 1) < max start 0 →
          (createStream fileLength false res start e).streamedRange
            = some (0, min e (fileLength - 1))) := by
  intro L start e res hres
  have hstart : (if start < 0 then 0 else start) = max start 0 := by
    rcases lt_or_le start 0 with h | h
    · rw [if_pos h, max_eq_right h.le]
    · rw [if_neg (not_lt.mpr h), max_eq_left h]
  have he : (if L ≤ e then L - 1 else e) = min e (L - 1) := by
    rcases le_or_lt L e with h | h
    · rw [if_pos h, min_eq_right (by omega)]
    · rw [if_neg (not_le.mpr h), min_eq_left (by omega)]
  simp only [createStream, hstart, he]
  by_cases hc : min e (L - 1) < max start 0
  · rw [if_pos hc]
    exact ⟨⟨fun _ => hc, fun _ => rfl⟩, fun _ hcon => absurd hc hcon⟩
  · rw [if_neg hc, if_neg Bool.false_ne_true]
    refine ⟨⟨fun h => absurd h hres, fun h => absurd h hc⟩, ?_⟩
    intro hneg _
    show some (max start 0, min e (L - 1)) = some (0, min e (L - 1))
    rw [max_eq_right hneg.le]

/-- C5, witness: the 416 characterization applied at the concrete
unsatisfiable range `[1200, 1300]` over a file of length 1000 with the
caller's 206 pre-state. -/
theorem createStream_416_iff_witness :
    (((createStream 1000 false ⟨206, none, none, none, none, none⟩ 1200 1300).status = 416)
      ↔ min (1300 : Int) (1000 - 1) < max 1200 0)
    ∧ ((1200 : Int) < 0 → ¬ min (1300 : Int) (1000 - 1) < max 1200 0 →
        (createStream 1000 false ⟨206, none, none, none, none, none⟩ 1200 1300).streamedRange
          = some (0, min 1300 (1000 - 1))) :=
  createStream_416_iff 1000 1200 1300 ⟨206, none, none, none, none, none⟩ (by decide)

theorem touchFirstByInfoHash_append {pre post : Registry} {x : TorrentEntry}
    {torrentId now : Nat} (hx : x.infoHash = torrentId)
    (hpre : ∀ y ∈ pre, y.infoHash ≠ torrentId) :
    touchFirstByInfoHash (pre ++ x :: post) torrentId now
      = pre ++ { x with lastAccessed := now } :: post := by
  induction pre with
  | nil =>
    simp only [List.nil_append, touchFirstByInfoHash]
    rw [if_pos (beq_iff_eq.mpr hx)]
  | cons y ys ih =>
    simp only [List.cons_append, touchFirstByInfoHash, List.append_eq]
    rw [if_neg (by simpa using hpre y (List.mem_cons_self _ _)),
      ih (fun z hz => hpre z (List.mem_cons_of_mem _ hz))]

/-- C3 (amended): a stream open never refreshes `lastAccessedAt` — the
stream handler leaves the registry untouched in every branch — whereas
the status-poll (info) and download-open handlers both refresh the first
session matching the torrent id to the current time. -/
theorem stream_open_does_not_refresh :
    (∀ (reg : Registry) (torrentId now : Nat),
      streamGetRegistry reg torrentId now = reg)
    ∧ (∀ (pre post : Registry) (x : TorrentEntry) (torrentId now : Nat),
        x.infoHash = torrentId → (∀ y ∈ pre, y.infoHash ≠ torrentId) →
        infoGetRegistry (pre ++ x :: post) torrentId now true
            = pre ++ { x with lastAccessed := now } :: post
          ∧ downloadGetRegistry (pre ++ x :: post) torrentId now true
            = pre ++ { x with lastAccessed := now } :: post) := by
  refine ⟨fun reg torrentId now => rfl, ?_⟩
  intro pre post x torrentId now hx hpre
  constructor
  · show touchFirstByInfoHash (pre ++ x :: post) torrentId now = _
    exact touchFirstByInfoHash_append hx hpre
  · show touchFirstByInfoHash (pre ++ x :: post) torrentId now = _
    exact touchFirstByInfoHash_append hx hpre

/-- C3, witness: the no-touch/touch contrast at a concrete one-session
registry. -/
theorem stream_open_does_not_refresh_witness :
    streamGetRegistry [⟨"m", 7, 0, 0, false, []⟩] 7 100 = [⟨"m", 7, 0, 0, false, []⟩]
    ∧ (infoGetRegistry ([] ++ (⟨"m", 7, 0, 0, false, []⟩ : TorrentEntry) :: []) 7 100 true
        = [] ++ ({ (⟨"m", 7, 0, 0, false, []⟩ : TorrentEntry) with lastAccessed := 100 } : TorrentEntry) :: []
      ∧ downloadGetRegistry ([] ++ (⟨"m", 7, 0, 0, false, []⟩ : TorrentEntry) :: []) 7 100 true
        = [] ++ ({ (⟨"m", 7, 0, 0, false, []⟩ : TorrentEntry) with lastAccessed := 100 } : TorrentEntry) :: []) :=
  ⟨stream_open_does_not_refresh.1 _ 7 100,
   stream_open_does_not_refresh.2 [] [] _ 7 100 (by decide) (by simp)⟩

/-- C7 (amended): on a progress tick whose exact progress ratio exceeds
0.01, with a selected video file, the policy raises priority exactly for
the piece indices in `[currentPiece, currentPiece + 20)` clamped to the
piece range that the engine can resolve and that are not already done
(`currentPiece = floor(progressRatio * numPieces)`); at session creation
it instead pins exactly the resolvable pieces in
`[0, min(numPieces, 100))`. -/
theorem piece_priority_policy :
    (∀ (files : List FileInfo) (received totalLength numPieces : Nat)
        (pieceExists pieceDone : Nat → Bool) (i : Nat),
      (findVideoFile files).isSome = true → 100 * received > totalLength →
      (i ∈ onDownloadTick files received totalLength numPieces pieceExists pieceDone
        ↔ received * numPieces / totalLength ≤ i
          ∧ i < min (received * numPieces / totalLength + 20) numPieces
          ∧ pieceExists i = true ∧ pieceDone i = false))
    ∧ (∀ (files : List FileInfo) (numPieces : Nat) (pieceExists : Nat → Bool) (i : Nat),
      (findVideoFile files).isSome = true →
      (i ∈ onTorrentAddInit files true numPieces pieceExists
        ↔ i < min numPieces 100 ∧ pieceExists i = true)) := by
  constructor
  · intro files received totalLength numPieces pieceExists pieceDone i hvf hprog
    obtain ⟨vf, hvf2⟩ := Option.isSome_iff_exists.mp hvf
    have hlen : files.length > 0 := by
      cases files with
      | nil => simp [findVideoFile] at hvf2
      | cons a l => simp
    simp only [onDownloadTick, if_pos (And.intro hlen hprog), hvf2]
    rw [List.mem_filter]
    simp only [jsLoopRange, List.mem_range'_1, Bool.and_eq_true, Bool.not_eq_true']
    constructor
    · rintro ⟨⟨h1, h2⟩, h3, h4⟩
      exact ⟨h1, by omega, h3, h4⟩
    · rintro ⟨h1, h2, h3, h4⟩
      exact ⟨⟨h1, by omega⟩, h3, h4⟩
  · intro files numPieces pieceExists i hvf
    obtain ⟨vf, hvf2⟩ := Option.isSome_iff_exists.mp hvf
    have hlen : files.length > 0 := by
      cases files with
      | nil => simp [findVideoFile] at hvf2
      | cons a l => simp
    simp only [onTorrentAddInit, if_pos hlen, hvf2, eq_self_iff_true, if_true]
    rw [List.mem_filter]
    simp only [jsLoopRange, List.mem_range'_1]
    constructor
    · rintro ⟨⟨h0, h2⟩, h3⟩
      exact ⟨by omega, h3⟩
    · rintro ⟨h2, h3⟩
      exact ⟨⟨by omega, by omega⟩, h3⟩

/-- C7, witness: the tick characterization at a concrete half-downloaded
torrent and the creation pin at a concrete piece index. -/
theorem piece_priority_policy_witness :
    (25 ∈ onDownloadTick [⟨"a.mp4", 1000⟩] 500 1000 50 (fun _ => true) (fun _ => false)
      ↔ 500 * 50 / 1000 ≤ 25 ∧ 25 < min (500 * 50 / 1000 + 20) 50
        ∧ (fun _ : Nat => true) 25 = true ∧ (fun _ : Nat => false) 25 = false)
    ∧ (7 ∈ onTorrentAddInit [⟨"a.mp4", 1000⟩] true 50 (fun _ => true)
      ↔ 7 < min 50 100 ∧ (fun _ : Nat => true) 7 = true) :=
  ⟨piece_priority_policy.1 [⟨"a.mp4", 1000⟩] 500 1000 50 (fun _ => true) (fun _ => false) 25
      (by decide) (by decide),
   piece_priority_policy.2 [⟨"a.mp4", 1000⟩] 50 (fun _ => true) 7 (by decide)⟩

/-- C9: for one identical malformed `Range` header (start or end not
parseable as an integer), the stream endpoint answers 400 ("Invalid
range") while the download endpoint answers 416 ("Range Not
Satisfiable"): the two range-serving endpoints disagree on the error
code. -/
theorem malformed_range_status_mismatch :
    ∀ (t : TorrentView) (vf : FileInfo) (r : String),
      findVideoFile t.files = some vf → t.destroyed = false → r ≠ "" →
      (parseRangeStart r = none ∨ parseRangeEnd r vf.length = none) →
      (streamGet (some t) (some r)).status = 400
      ∧ (downloadGet (some t) (some r)).status = 416 := by
  intro t vf r hvf hdes hr hmal
  cases hs : parseRangeStart r with
  | none =>
    cases he : parseRangeEnd r vf.length with
    | none => simp [streamGet, downloadGet, hvf, hdes, hr, hs, he]
    | some e => simp [streamGet, downloadGet, hvf, hdes, hr, hs, he]
  | some s0 =>
    cases he : parseRangeEnd r vf.length with
    | none => simp [streamGet, downloadGet, hvf, hdes, hr, hs, he]
    | some e =>
      rcases hmal with h1 | h1
      · rw [hs] at h1; cases h1
      · rw [he] at h1; cases h1

/-- C9, witness: the disagreement at the concrete malformed header
`bytes=abc`. -/
theorem malformed_range_status_mismatch_witness :
    (streamGet (some ⟨[⟨"a.mp4", 1000⟩], false⟩) (some "bytes=abc")).status = 400
    ∧ (downloadGet (some ⟨[⟨"a.mp4", 1000⟩], false⟩) (some "bytes=abc")).status = 416 :=
  malformed_range_status_mismatch ⟨[⟨"a.mp4", 1000⟩], false⟩ ⟨"a.mp4", 1000⟩ "bytes=abc"
    (by decide) rfl (by decide) (Or.inl (by decide))

/-- C10: the download filename is the selected file's name with every
character outside `[a-zA-Z0-9.-]` replaced by an underscore, so the
emitted `Content-Disposition` value never contains a quote, a space, or
a control character from the original name; and the header is built from
exactly this sanitized name on every download-open of a ready session. -/
theorem download_filename_sanitization :
    (∀ (name : String) (c : Char), c ∈ (sanitizeFileName name).data →
      (isFilenameSafe c = true ∧ c ∈ name.data) ∨ c = '_')
    ∧ (∀ (name : String) (c : Char), c ∈ (sanitizeFileName name).data →
      c ≠ '"' ∧ c ≠ ' ' ∧ 32 ≤ c.toNat ∧ c.toNat ≠ 127)
    ∧ (∀ (t : TorrentView) (vf : FileInfo) (range : Option String),
      findVideoFile t.files = some vf → t.destroyed = false →
      (downloadGet (some t) range).contentDisposition
        = some ("attachment; filename=\"" ++ sanitizeFileName vf.name ++ "\"")) := by
  have part1 : ∀ (name : String) (c : Char), c ∈ (sanitizeFileName name).data →
      (isFilenameSafe c = true ∧ c ∈ name.data) ∨ c = '_' := by
    intro name c hc
    simp only [sanitizeFileName] at hc
    rw [List.mem_map] at hc
    obtain ⟨a, ha, hac⟩ := hc
    by_cases hsafe : isFilenameSafe a
    · rw [if_pos hsafe] at hac
      exact Or.inl ⟨hac ▸ hsafe, hac ▸ ha⟩
    · rw [if_neg hsafe] at hac
      exact Or.inr hac.symm
  refine ⟨part1, ?_, ?_⟩
  · intro name c hc
    rcases part1 name c hc with ⟨hsafe, -⟩ | heq
    · refine ⟨?_, ?_, ?_, ?_⟩
      · intro h
        rw [h] at hsafe
        exact absurd hsafe (by decide)
      · intro h
        rw [h] at hsafe
        exact absurd hsafe (by decide)
      · simp only [isFilenameSafe, Bool.or_eq_true, Bool.and_eq_true, decide_eq_true_eq,
          beq_iff_eq] at hsafe
        omega
      · simp only [isFilenameSafe, Bool.or_eq_true, Bool.and_eq_true, decide_eq_true_eq,
          beq_iff_eq] at hsafe
        omega
    · subst heq
      exact ⟨by decide, by decide, by decide, by decide⟩
  · intro t vf range hvf hdes
    cases range with
    | none => simp [downloadGet, hvf, hdes]
    | some r =>
      by_cases hr : r = ""
      · simp [downloadGet, hvf, hdes, hr]
      · cases hs : parseRangeStart r with
        | none =>
          cases he : parseRangeEnd r vf.length <;>
            simp [downloadGet, hvf, hdes, hr, hs, he]
        | some s0 =>
          cases he : parseRangeEnd r vf.length with
          | none => simp [downloadGet, hvf, hdes, hr, hs, he]
          | some e =>
            by_cases hlt : e < s0 <;> simp [downloadGet, hvf, hdes, hr, hs, he, hlt]

/-- C10, witness: the character guarantees and the emitted header at the
concrete name `My Movie.mp4`. -/
theorem download_filename_sanitization_witness :
    ((isFilenameSafe 'M' = true ∧ 'M' ∈ ("My Movie.mp4" : String).data) ∨ 'M' = '_')
    ∧ ('_' ≠ '"' ∧ '_' ≠ ' ' ∧ 32 ≤ '_'.toNat ∧ '_'.toNat ≠ 127)
    ∧ (downloadGet (some ⟨[⟨"My Movie.mp4", 1000⟩], false⟩) none).contentDisposition
        = some ("attachment; filename=\"" ++ sanitizeFileName "My Movie.mp4" ++ "\"") :=
  ⟨download_filename_sanitization.1 "My Movie.mp4" 'M' (by decide),
   download_filename_sanitization.2.1 "My Movie.mp4" '_' (by decide),
   download_filename_sanitization.2.2 ⟨[⟨"My Movie.mp4", 1000⟩], false⟩
     ⟨"My Movie.mp4", 1000⟩ none (by decide) rfl⟩

/-- C8 (amended): the search endpoint answers 400 for every empty or
whitespace-only query; upstream search failures are swallowed per
category (a failed category contributes no results), so even a total
upstream failure yields a 200 success with an empty list — never 502;
and the returned result list is always sorted descending by seeder
count. -/
theorem search_endpoint_behavior :
    (∀ (query : Option String) (page limit : Nat)
        (upstream : List (Option (List RawResult))),
      (query = none ∨ jsTrim (query.getD "") = "") →
      (searchGet query page limit upstream).status = 400)
    ∧ (∀ (q : String) (page limit : Nat),
      jsTrim q ≠ "" →
      searchGet (some q) page limit [none, none, none]
        = { status := 200, results := [], total := 0 })
    ∧ (∀ (query : Option String) (page limit : Nat)
        (upstream : List (Option (List RawResult))),
      ((searchGet query page limit upstream).results).Pairwise
        (fun a b => seedKey b ≤ seedKey a)) := by
  refine ⟨?_, ?_, ?_⟩
  · intro query page limit upstream h
    simp only [searchGet, if_pos h]
  · intro q page limit hq
    have hcond : ¬ ((some q : Option String) = none ∨ jsTrim ((some q : Option String).getD "") = "") := by
      simp [hq]
    simp only [searchGet, if_neg hcond]
    simp [jsSlice, sortBySeedersDesc]
  · intro query page limit upstream
    unfold searchGet
    split
    · exact List.Pairwise.nil
    · exact pairwise_sortBySeedersDesc _

/-- C8, witness: the three behaviors at concrete inputs — a whitespace
query, a total upstream failure, and an arbitrary concrete call. -/
theorem search_endpoint_behavior_witness :
    (searchGet (some "   ") 1 20 []).status = 400
    ∧ searchGet (some "ubuntu") 1 20 [none, none, none]
        = { status := 200, results := [], total := 0 }
    ∧ ((searchGet (some "ubuntu") 2 5 [none, none, none]).results).Pairwise
        (fun a b => seedKey b ≤ seedKey a) :=
  ⟨search_endpoint_behavior.1 (some "   ") 1 20 [] (by decide),
   search_endpoint_behavior.2.1 "ubuntu" 1 20 (by decide),
   search_endpoint_behavior.2.2 (some "ubuntu") 2 5 [none, none, none]⟩

/-- C6, witness: the general victim characterization applied to the
concrete at-capacity registry of the scenario. -/
theorem lru_eviction_victim_witness :
    ∃ v pre post,
      ([⟨"A", 0, 0, 0, false, []⟩, ⟨"B", 1, 5, 1, false, []⟩,
        ⟨"C", 2, 10, 2, false, []⟩] : Registry) = pre ++ v :: post
      ∧ (∀ e ∈ pre, v.lastAccessed < e.lastAccessed)
      ∧ (∀ e ∈ post, v.lastAccessed ≤ e.lastAccessed)
      ∧ cleanupOldTorrents "D" [⟨"A", 0, 0, 0, false, []⟩, ⟨"B", 1, 5, 1, false, []⟩,
          ⟨"C", 2, 10, 2, false, []⟩] = pre ++ post :=
  lru_eviction_victim.1 _ "D" (by decide) (by decide) (by decide)

/-- C2: evaluating the code at the failing input. The first
`POST /api/stream` for a magnet creates one engine handle and leaves a
live (non-destroyed) session in the registry; yet a second request for
the same magnet, arriving before the engine has delivered metadata (so
no video file is known), calls `client.add` again: the handle-creation
count for this single locator reaches 2, and the second response is the
"added" one, not the reuse response. -/
theorem duplicate_client_add_for_same_locator :
    (runEvents [.request "magnet:x" 0]).addCalls = 1
    ∧ lookupEntry (runEvents [.request "magnet:x" 0]).registry "magnet:x"
        = some (newTorrentEntry "magnet:x" 0 0)
    ∧ (newTorrentEntry "magnet:x" 0 0).destroyed = false
    ∧ (runEvents [.request "magnet:x" 0, .request "magnet:x" 1]).addCalls = 2
    ∧ (streamPost (runEvents [.request "magnet:x" 0]) "magnet:x" 1).2
        = StreamPostResponse.added 1 := by
  decide

/-- C4: range math of the stream endpoint for a ready session whose
selected file has length 1000: `bytes=500-` answers 206 with
`Content-Range: bytes 500-999/1000` and `Content-Length: 500` (and
streams exactly the bytes 500–999); `bytes=1200-1300` answers 416. -/
theorem range_math :
    (streamGet (some ⟨[⟨"movie.mp4", 1000⟩], false⟩) (some "bytes=500-")).status = 206
    ∧ (streamGet (some ⟨[⟨"movie.mp4", 1000⟩], false⟩) (some "bytes=500-")).contentRange
        = some "bytes 500-999/1000"
    ∧ (streamGet (some ⟨[⟨"movie.mp4", 1000⟩], false⟩) (some "bytes=500-")).contentLength
        = some 500
    ∧ (streamGet (some ⟨[⟨"movie.mp4", 1000⟩], false⟩) (some "bytes=500-")).streamedRange
        = some (500, 999)
    ∧ (streamGet (some ⟨[⟨"movie.mp4", 1000⟩], false⟩) (some "bytes=1200-1300")).status
        = 416 := by
  decide

/-- C5, counterexample: the claim's 416 condition (`start < 0` rejected)
is false at `start = -5`, `end = 10`, `length = 1000`: the claimed
condition holds there, yet `createStream` repairs the start to 0 and
streams bytes `[0, 10]` with the caller's 206 status instead of failing
with 416. -/
theorem negative_start_repaired_counterexample :
    claimed416 (-5) 10 1000
    ∧ (createStream 1000 false ⟨206, none, none, none, none, none⟩ (-5) 10).status ≠ 416
    ∧ (createStream 1000 false ⟨206, none, none, none, none, none⟩ (-5) 10).streamedRange
        = some (0, 10) := by
  decide

/-- C6, counterexample: a reachable request trace (second request for
`m1` before its metadata arrives overwrites its entry in place, renewing
`createdAt` but keeping its map position) produces a registry at capacity
in which `m1` and `m2` tie on `lastAccessedAt = 10` while
`createdAt m2 = 5 < 10 = createdAt m1`. The spec's victim rule (smallest
`lastAccessedAt`, ties by smallest `createdAt`) picks `m2`, but the
code's stable sort picks the earlier-inserted `m1`: requesting the new
resource `m4` evicts `m1` and keeps `m2`. -/
theorem lru_tie_break_counterexample :
    (specClaimVictim "m4" (runEvents [.request "m1" 0, .request "m2" 5,
        .metadata "m2" [⟨"x.mp4", 1000⟩], .request "m2" 10, .request "m1" 10,
        .request "m3" 12]).registry).map (fun e => e.magnet) = some "m2"
    ∧ lookupEntry (cleanupOldTorrents "m4" (runEvents [.request "m1" 0, .request "m2" 5,
        .metadata "m2" [⟨"x.mp4", 1000⟩], .request "m2" 10, .request "m1" 10,
        .request "m3" 12]).registry) "m1" = none
    ∧ (lookupEntry (cleanupOldTorrents "m4" (runEvents [.request "m1" 0, .request "m2" 5,
        .metadata "m2" [⟨"x.mp4", 1000⟩], .request "m2" 10, .request "m1" 10,
        .request "m3" 12]).registry) "m2").isSome = true := by
  decide

/-- C7, counterexample: (a) a progress tick at ratio 1/1000 (≤ 0.01) on a
session with a selected file and 50 pieces raises no priorities at all,
while the claimed window `[0, 20)` is nonempty; (b) at ratio 1/2 the
current piece 25 is skipped merely for being `done`, although the engine
can resolve it, while the claimed window includes it. -/
theorem priority_tick_threshold_counterexample :
    onDownloadTick [⟨"a.mp4", 1000⟩] 1 1000 50 (fun _ => true) (fun _ => false) = []
    ∧ specTickPriorities 1 1000 50 (fun _ => true) = jsLoopRange 0 20
    ∧ jsLoopRange 0 20 ≠ []
    ∧ (25 ∈ onDownloadTick [⟨"a.mp4", 1000⟩] 500 1000 50 (fun _ => true)
        (fun i => i == 25)) = False
    ∧ 25 ∈ specTickPriorities 500 1000 50 (fun _ => true) := by
  decide

/-- C8, counterexample: with a non-empty query and all three upstream
category fetches failing, the handler answers 200 with an empty result
list — not 502 (each failed fetch resolves `[]`, so the failure is
invisible; no branch of the handler produces a 502). -/
theorem search_upstream_failure_counterexample :
    (searchGet (some "ubuntu") 1 20 [none, none, none]).status = 200
    ∧ (searchGet (some "ubuntu") 1 20 [none, none, none]).results = []
    ∧ (searchGet (some "ubuntu") 1 20 [none, none, none]).status ≠ 502 := by
  decide

/-- C3, counterexample: a stream open against the only session (handle 0,
`lastAccessed = 0`) at time 100 leaves the registry unchanged, while the
touch the claim demands (the same loop the info and download handlers
run) would refresh `lastAccessed` to 100. -/
theorem stream_open_no_touch_counterexample :
    streamGetRegistry [⟨"m", 0, 0, 0, false, []⟩] 0 100
      = [⟨"m", 0, 0, 0, false, []⟩]
    ∧ streamGetRegistrySpec [⟨"m", 0, 0, 0, false, []⟩] 0 100
      = [⟨"m", 0, 100, 0, false, []⟩]
    ∧ ([⟨"m", 0, 0, 0, false, []⟩] : Registry) ≠ [⟨"m", 0, 100, 0, false, []⟩] := by
  decide

end MagnetStreamer
